import Mathlib

/-!
Shallow embedding of the ShadowRealm call bridge from
`src/deps/v8/src/builtins/builtins-shadowrealm-gen.cc`:

* `shadowRealmGetWrappedValue` embeds `TF_BUILTIN(ShadowRealmGetWrappedValue, ...)`
  (the spec's `ValueWrapper.wrap`),
* `callWrappedFunction` embeds `TF_BUILTIN(CallWrappedFunction, ...)`
  (the spec's `CallTrampoline.invoke`).

Realms (V8 `Context` / native context handles) are opaque comparable handles,
modelled as `Nat`.  JS heap objects (`JSReceiver`s) live in an explicit heap, a
list of `HeapObj` indexed by allocation order, so that object identity and
fresh allocation (`AllocateJSObjectFromMap`) are observable.  Primitives (Smis
and non-receiver heap values) are realm-independent immediates.

`callWrappedFunction` additionally returns the ordered list of observable
`Event`s it performed (each `CallBuiltin(kShadowRealmGetWrappedValue, ...)`
re-entry and the `CallVarargs` of the underlying target), so that marshalling
order and counts can be stated.
-/

/-- Primitive (non-`JSReceiver`) values: Smis and non-receiver heap values
(strings, heap numbers, ...).  `ShadowRealmGetWrappedValue` treats both
identically (the `TaggedIsSmi` / `!IsJSReceiver` branches to `if_primitive`). -/
inductive Prim where
  | smi : Int → Prim
  | heapPrim : Nat → Prim
deriving DecidableEq, Repr

/-- A tagged JS value: a primitive immediate or a reference to a heap object. -/
inductive Value where
  | prim : Prim → Value
  | ref : Nat → Value
deriving DecidableEq, Repr

/-- A `JSReceiver` on the heap.
`plainCallable realm` is an ordinary callable whose function realm
(`GetFunctionRealm`) is `realm`; `nonCallable` is a non-callable receiver;
`wrappedFunction target realm` is a `JSWrappedFunction` with its
`kWrappedTargetFunctionOffset` field pointing at heap object `target` and its
`kContextOffset` field holding `realm`. -/
inductive HeapObj where
  | plainCallable (realm : Nat)
  | nonCallable
  | wrappedFunction (target realm : Nat)
deriving DecidableEq, Repr

/-- The heap: object `i` is `h[i]`, allocation appends. -/
abbrev Heap := List HeapObj

/-- Heap lookup. -/
def Heap.get (h : Heap) (i : Nat) : Option HeapObj := h[i]?

/-- `IsCallable` on heap objects: plain callables and `JSWrappedFunction`s are
callable, other receivers are not. -/
def HeapObj.isCallableObj : HeapObj → Bool
  | .plainCallable _ => true
  | .wrappedFunction _ _ => true
  | .nonCallable => false

/-- The two `MessageTemplate`s thrown by this file of builtins. -/
inductive MessageTemplate where
  | kNotCallable
  | kCallShadowRealmFunctionThrown
deriving DecidableEq, Repr

/-- An error signalled to user code.  `typeError context msg arg` models
`ThrowTypeError(context, msg, arg)`: a fresh error created in `context` whose
message is rendered from template `msg` with `arg` as the template argument.
`stackOverflow context` models the range error thrown by
`PerformStackCheck(context)`. -/
inductive VMError where
  | typeError (context : Nat) (msg : MessageTemplate) (arg : Value)
  | stackOverflow (context : Nat)
deriving DecidableEq, Repr

/-- Outcome of running a builtin: normal return, a thrown `VMError`, the CSA
`Unreachable()` trap (`target_not_callable` label), or `stuck` for states the
VM never produces (a dangling heap reference). -/
inductive Outcome (α : Type) where
  | ok : α → Outcome α
  | thrown : VMError → Outcome α
  | unreachableHit : Outcome α
  | stuck : Outcome α
deriving DecidableEq, Repr

/-- Embedding of `TF_BUILTIN(ShadowRealmGetWrappedValue, ...)`.
Parameters follow the descriptor: `context` (`Descriptor::kContext`),
`creation_context` (`Descriptor::kCreationContext`), `value`
(`Descriptor::kValue`); the heap is threaded explicitly.

* Smis and non-receivers go to `if_primitive` and are returned unchanged.
* A non-callable receiver goes to `bailout`:
  `ThrowTypeError(context, MessageTemplate::kNotCallable, value)`.
* A callable receiver: `target := value`; if `value` is a `JSWrappedFunction`
  the `unwrap` block reloads `target` from its
  `kWrappedTargetFunctionOffset`.  Then `wrap` allocates a fresh
  `JSWrappedFunction` from `creation_context`'s `WRAPPED_FUNCTION_MAP_INDEX`
  map, stores `target` in `kWrappedTargetFunctionOffset` and
  `creation_context` in `kContextOffset`, and returns it. -/
def shadowRealmGetWrappedValue (context creation_context : Nat) (value : Value)
    (h : Heap) : Outcome (Value × Heap) :=
  match value with
  | .prim _ => .ok (value, h)
  | .ref i =>
    match h.get i with
    | none => .stuck
    | some .nonCallable => .thrown (.typeError context .kNotCallable value)
    | some (.plainCallable _) =>
      .ok (.ref h.length, h ++ [.wrappedFunction i creation_context])
    | some (.wrappedFunction t _) =>
      .ok (.ref h.length, h ++ [.wrappedFunction t creation_context])

/-- `GetFunctionRealm(context, target, &target_not_callable)`: resolves the
native context owning a callable; `none` models the jump to the
`target_not_callable` bailout label. -/
def getFunctionRealm (h : Heap) (i : Nat) : Option Nat :=
  match h.get i with
  | some (.plainCallable r) => some r
  | some (.wrappedFunction _ r) => some r
  | _ => none

/-- Observable steps of `CallWrappedFunction`: each
`CallBuiltin(Builtin::kShadowRealmGetWrappedValue, context, creation_context,
value)` re-entry, and the `CallVarargs` invocation of the underlying target. -/
inductive Event where
  | wrapCall (context creation_context : Nat) (value : Value)
  | targetCall (target_context target : Nat) (receiver : Value) (args : List Value)
deriving DecidableEq, Repr

/-- `true` on the `wrapCall` events (re-entries into the value wrapper). -/
def Event.isWrapCall : Event → Bool
  | .wrapCall _ _ _ => true
  | _ => false

/-- `true` on `wrapCall` events whose creation context (the realm the value is
being admitted into) is `r`. -/
def Event.isWrapInto (r : Nat) : Event → Bool
  | .wrapCall _ cc _ => cc = r
  | _ => false

/-- `true` on the `targetCall` event (the `CallVarargs` of the target). -/
def Event.isTargetCall : Event → Bool
  | .targetCall _ _ _ _ => true
  | _ => false

/-- The host's primitive call mechanism (`CodeFactory::CallVarargs`), which
runs the underlying callable: given the target context, the target's heap id,
the (already wrapped) receiver and arguments, and the heap, it returns the
possibly grown heap and either a normal result or a thrown exception value.
The execution engine is external to the bridge, so it is a parameter. -/
def CallOracle : Type :=
  Nat → Nat → Value → List Value → Heap → Heap × Except Value Value

/-- An oracle whose call always returns `v` normally and leaves the heap
unchanged. -/
def constOracle (v : Value) : CallOracle := fun _ _ _ _ h => (h, .ok v)

/-- An oracle whose call always throws the exception value `e`. -/
def throwOracle (e : Value) : CallOracle := fun _ _ _ _ h => (h, .error e)

/-- The argument-marshalling loop of `CallWrappedFunction` (step 7,
`BuildFastLoop`): wraps each argument in index order via
`CallBuiltin(kShadowRealmGetWrappedValue, context, creation_context, arg)`,
recording one `wrapCall` event per performed builtin call, and stops at the
first abrupt completion. -/
def wrapArgs (context creation_context : Nat) :
    List Value → Heap → Outcome (List Value × Heap) × List Event
  | [], h => (.ok ([], h), [])
  | a :: rest, h =>
    match shadowRealmGetWrappedValue context creation_context a h with
    | .ok (w, h1) =>
      match wrapArgs context creation_context rest h1 with
      | (.ok (ws, h2), evs) =>
        (.ok (w :: ws, h2), .wrapCall context creation_context a :: evs)
      | (.thrown e, evs) =>
        (.thrown e, .wrapCall context creation_context a :: evs)
      | (.unreachableHit, evs) =>
        (.unreachableHit, .wrapCall context creation_context a :: evs)
      | (.stuck, evs) =>
        (.stuck, .wrapCall context creation_context a :: evs)
    | .thrown e => (.thrown e, [.wrapCall context creation_context a])
    | .unreachableHit => (.unreachableHit, [.wrapCall context creation_context a])
    | .stuck => (.stuck, [.wrapCall context creation_context a])

/-- Embedding of `TF_BUILTIN(CallWrappedFunction, ...)`.

Parameters: `call` is the external call mechanism; `stackOk` is the verdict of
`PerformStackCheck(context)` (`false` = budget exceeded, throws); `context` is
`Descriptor::kContext` (the context the builtin is invoked in); `fid` is the
heap id of `Descriptor::kFunction`, the `JSWrappedFunction` being called;
`receiver` and `args` are the receiver and the argument list; `h` the heap.

Steps, in source order:
1. `PerformStackCheck(context)` — on failure nothing else runs.
2. `target := F.[[WrappedTargetFunction]]`,
   `caller_context := F.[[kContextOffset]]`.
3. `target_context := GetFunctionRealm(caller_context, target,
   &target_not_callable)`; the bailout label is `Unreachable()`.
4. `wrapped_receiver := CallBuiltin(kShadowRealmGetWrappedValue,
   caller_context, target_context, receiver)`.
5. The argument loop wraps each argument with the same pair of contexts.
6. `CallVarargs` runs the target in `target_context` under an exception
   handler; on exception `e` it throws
   `TypeError(context, kCallShadowRealmFunctionThrown, e)`.
7. On normal completion the result is wrapped by
   `CallBuiltin(kShadowRealmGetWrappedValue, caller_context, caller_context,
   result)` and returned. -/
def callWrappedFunction (call : CallOracle) (stackOk : Bool) (context : Nat)
    (fid : Nat) (receiver : Value) (args : List Value) (h : Heap) :
    Outcome (Value × Heap) × List Event :=
  if stackOk then
    match h.get fid with
    | some (.wrappedFunction target caller_context) =>
      match getFunctionRealm h target with
      | none => (.unreachableHit, [])
      | some target_context =>
        match shadowRealmGetWrappedValue caller_context target_context receiver h with
        | .ok (wrapped_receiver, h1) =>
          match wrapArgs caller_context target_context args h1 with
          | (.ok (wrapped_args, h2), evs) =>
            match call target_context target wrapped_receiver wrapped_args h2 with
            | (_h3, .error e) =>
              (.thrown (.typeError context .kCallShadowRealmFunctionThrown e),
               .wrapCall caller_context target_context receiver :: evs ++
                 [.targetCall target_context target wrapped_receiver wrapped_args])
            | (h3, .ok result) =>
              match shadowRealmGetWrappedValue caller_context caller_context result h3 with
              | .ok (wrapped_result, h4) =>
                (.ok (wrapped_result, h4),
                 .wrapCall caller_context target_context receiver :: evs ++
                   [.targetCall target_context target wrapped_receiver wrapped_args,
                    .wrapCall caller_context caller_context result])
              | .thrown e =>
                (.thrown e,
                 .wrapCall caller_context target_context receiver :: evs ++
                   [.targetCall target_context target wrapped_receiver wrapped_args,
                    .wrapCall caller_context caller_context result])
              | .unreachableHit =>
                (.unreachableHit,
                 .wrapCall caller_context target_context receiver :: evs ++
                   [.targetCall target_context target wrapped_receiver wrapped_args,
                    .wrapCall caller_context caller_context result])
              | .stuck =>
                (.stuck,
                 .wrapCall caller_context target_context receiver :: evs ++
                   [.targetCall target_context target wrapped_receiver wrapped_args,
                    .wrapCall caller_context caller_context result])
          | (.thrown e, evs) =>
            (.thrown e, .wrapCall caller_context target_context receiver :: evs)
          | (.unreachableHit, evs) =>
            (.unreachableHit, .wrapCall caller_context target_context receiver :: evs)
          | (.stuck, evs) =>
            (.stuck, .wrapCall caller_context target_context receiver :: evs)
        | .thrown e =>
          (.thrown e, [.wrapCall caller_context target_context receiver])
        | .unreachableHit =>
          (.unreachableHit, [.wrapCall caller_context target_context receiver])
        | .stuck =>
          (.stuck, [.wrapCall caller_context target_context receiver])
    | _ => (.stuck, [])
  else (.thrown (.stackOverflow context), [])

/-- The target stored by `ShadowRealmGetWrappedValue` when wrapping the
callable heap object `o` at id `i`: the `unwrap` block replaces a
`JSWrappedFunction` by its own target, any other callable is kept. -/
def unwrapTarget (i : Nat) : HeapObj → Nat
  | .wrappedFunction t _ => t
  | _ => i

/-- A value that `ShadowRealmGetWrappedValue` accepts: a primitive or a
reference to a callable heap object. -/
def wrappableB (h : Heap) : Value → Bool
  | .prim _ => true
  | .ref i =>
    match Heap.get h i with
    | some o => o.isCallableObj
    | none => false

/-- The global invariant of §3 of the design: the target stored in any
`JSWrappedFunction` on the heap is a plain (non-wrapper) callable. -/
def goodHeap (h : Heap) : Prop :=
  ∀ i t r, Heap.get h i = some (.wrappedFunction t r) →
    ∃ r2, Heap.get h t = some (.plainCallable r2)

/-- A sequence of re-wrappings: each entry `(context, creation_context)` is one
call of `ShadowRealmGetWrappedValue` on the value produced so far. -/
def wrapChain : List (Nat × Nat) → Value → Heap → Outcome (Value × Heap)
  | [], v, h => .ok (v, h)
  | (c, t) :: rest, v, h =>
    match shadowRealmGetWrappedValue c t v h with
    | .ok (v2, h2) => wrapChain rest v2 h2
    | .thrown e => .thrown e
    | .unreachableHit => .unreachableHit
    | .stuck => .stuck

/-- `v` is either the plain callable `c` itself or a wrapper whose stored
target is `c`. -/
def resolvesTo (h : Heap) (v : Value) (c : Nat) : Prop :=
  v = .ref c ∨ ∃ j r, v = .ref j ∧ Heap.get h j = some (.wrappedFunction c r)

example :
    shadowRealmGetWrappedValue 1 2 (.ref 0) [.plainCallable 5] =
      .ok (.ref 1, [.plainCallable 5, .wrappedFunction 0 2]) := by decide

example :
    (callWrappedFunction (constOracle (.prim (.smi 5))) true 1 1
        (.prim (.smi 0)) [] [.plainCallable 2, .wrappedFunction 0 1]).2 =
      [.wrapCall 1 2 (.prim (.smi 0)),
       .targetCall 2 0 (.prim (.smi 0)) [],
       .wrapCall 1 1 (.prim (.smi 5))] := by decide

/-! ### Heap lemmas -/

theorem Heap.lt_of_get_eq_some {h : Heap} {i : Nat} {o : HeapObj}
    (hg : Heap.get h i = some o) : i < h.length := by
  by_contra hc
  push_neg at hc
  rw [Heap.get, List.getElem?_eq_none hc] at hg
  cases hg

theorem Heap.get_append_left {h : Heap} (l : List HeapObj) {i : Nat}
    (hi : i < h.length) : Heap.get (h ++ l) i = Heap.get h i := by
  rw [Heap.get, Heap.get, List.getElem?_append]
  simp [hi]

theorem Heap.get_append_self (h : Heap) (o : HeapObj) :
    Heap.get (h ++ [o]) h.length = some o := by
  rw [Heap.get]
  simp

theorem Heap.get_append_cases {h : Heap} {x : HeapObj} {j : Nat} {o : HeapObj}
    (hg : Heap.get (h ++ [x]) j = some o) :
    (j < h.length ∧ Heap.get h j = some o) ∨ (j = h.length ∧ o = x) := by
  rcases lt_trichotomy j h.length with hj | hj | hj
  · left
    exact ⟨hj, by rwa [Heap.get_append_left [x] hj] at hg⟩
  · right
    refine ⟨hj, ?_⟩
    rw [hj, Heap.get_append_self] at hg
    exact (Option.some_injective _ hg).symm
  · exfalso
    have : (h ++ [x]).length ≤ j := by simp; omega
    rw [Heap.get, List.getElem?_eq_none this] at hg
    cases hg

/-! ### Wrapping lemmas -/


theorem wrap_callable_eq {h : Heap} {i : Nat} {o : HeapObj}
    (hg : Heap.get h i = some o) (hc : o.isCallableObj = true) (a b : Nat) :
    shadowRealmGetWrappedValue a b (.ref i) h =
      .ok (.ref h.length, h ++ [.wrappedFunction (unwrapTarget i o) b]) := by
  cases o with
  | plainCallable r => simp [shadowRealmGetWrappedValue, hg, unwrapTarget]
  | nonCallable => simp [HeapObj.isCallableObj] at hc
  | wrappedFunction t r => simp [shadowRealmGetWrappedValue, hg, unwrapTarget]

theorem wrappableB_append {h : Heap} {v : Value} (l : List HeapObj)
    (hw : wrappableB h v = true) : wrappableB (h ++ l) v = true := by
  cases v with
  | prim p => rfl
  | ref i =>
    rw [wrappableB] at hw ⊢
    rcases hg : Heap.get h i with _ | o
    · rw [hg] at hw
      cases hw
    · rw [Heap.get_append_left l (Heap.lt_of_get_eq_some hg), hg]
      rw [hg] at hw
      exact hw

theorem wrap_ok_of_wrappable {h : Heap} {v : Value}
    (hw : wrappableB h v = true) (a b : Nat) :
    ∃ w l, shadowRealmGetWrappedValue a b v h = .ok (w, h ++ l) ∧
      wrappableB (h ++ l) w = true := by
  cases v with
  | prim p => exact ⟨.prim p, [], by simp [shadowRealmGetWrappedValue], rfl⟩
  | ref i =>
    rw [wrappableB] at hw
    rcases hg : Heap.get h i with _ | o
    · rw [hg] at hw
      cases hw
    · rw [hg] at hw
      refine ⟨.ref h.length, [.wrappedFunction (unwrapTarget i o) b],
        wrap_callable_eq hg hw a b, ?_⟩
      rw [wrappableB, Heap.get_append_self]
      cases o with
      | plainCallable r => rfl
      | nonCallable => cases hw
      | wrappedFunction t r => rfl

theorem wrap_ne_unreachableHit (a b : Nat) (v : Value) (h : Heap) :
    shadowRealmGetWrappedValue a b v h ≠ .unreachableHit := by
  cases v with
  | prim p => simp [shadowRealmGetWrappedValue]
  | ref i =>
    rcases hg : Heap.get h i with _ | o
    · simp [shadowRealmGetWrappedValue, hg]
    · cases o <;> simp [shadowRealmGetWrappedValue, hg]

theorem wrapArgs_ok {args : List Value} {h : Heap}
    (hw : ∀ a ∈ args, wrappableB h a = true) (c t : Nat) :
    ∃ ws l, wrapArgs c t args h = (.ok (ws, h ++ l), args.map (Event.wrapCall c t)) ∧
      ws.length = args.length := by
  induction args generalizing h with
  | nil => exact ⟨[], [], by simp [wrapArgs], rfl⟩
  | cons a rest ih =>
    obtain ⟨w, l1, heq1, _⟩ := wrap_ok_of_wrappable (hw a (by simp)) c t
    obtain ⟨ws, l2, heq2, hlen⟩ :=
      ih (fun x hx => wrappableB_append l1 (hw x (by simp [hx])))
    refine ⟨w :: ws, l1 ++ l2, ?_, by simp [hlen]⟩
    rw [wrapArgs, heq1]
    simp [heq2]

theorem wrapArgs_bad (post : List Value) (i c t : Nat) :
    ∀ (pre : List Value) (h : Heap),
    (∀ a ∈ pre, wrappableB h a = true) →
    Heap.get h i = some .nonCallable →
    wrapArgs c t (pre ++ .ref i :: post) h =
      (.thrown (.typeError c .kNotCallable (.ref i)),
       pre.map (Event.wrapCall c t) ++ [Event.wrapCall c t (.ref i)]) := by
  intro pre
  induction pre with
  | nil =>
    intro h _ hbad
    simp only [List.nil_append, List.map_nil, List.nil_append]
    rw [wrapArgs]
    rw [show shadowRealmGetWrappedValue c t (.ref i) h =
          .thrown (.typeError c .kNotCallable (.ref i)) by
        simp [shadowRealmGetWrappedValue, hbad]]
  | cons a rest ih =>
    intro h hpre hbad
    obtain ⟨w, l1, heq1, _⟩ := wrap_ok_of_wrappable (hpre a (by simp)) c t
    have hbad1 : Heap.get (h ++ l1) i = some .nonCallable := by
      rw [Heap.get_append_left l1 (Heap.lt_of_get_eq_some hbad)]
      exact hbad
    have hrec := ih (h ++ l1)
      (fun x hx => wrappableB_append l1 (hpre x (by simp [hx]))) hbad1
    simp only [List.cons_append]
    rw [wrapArgs, heq1]
    simp [hrec]

theorem wrapArgs_ne_unreachableHit (c t : Nat) :
    ∀ (args : List Value) (h : Heap),
    (wrapArgs c t args h).1 ≠ .unreachableHit := by
  intro args
  induction args with
  | nil => intro h; simp [wrapArgs]
  | cons a rest ih =>
    intro h
    rw [wrapArgs]
    rcases hw : shadowRealmGetWrappedValue c t a h with ⟨w, h1⟩ | e | _ | _
    · rcases hr : wrapArgs c t rest h1 with ⟨o, evs⟩
      have hne := ih h1
      rw [hr] at hne
      cases o <;> simp_all
    · simp
    · exact absurd hw (wrap_ne_unreachableHit c t a h)
    · simp

/-! ### The wrapper-target invariant and wrapping chains -/


theorem wrap_preserves_goodHeap {h : Heap} {v : Value} {w : Value} {h2 : Heap}
    (hgood : goodHeap h) (a b : Nat)
    (heq : shadowRealmGetWrappedValue a b v h = .ok (w, h2)) : goodHeap h2 := by
  cases v with
  | prim p =>
    rw [shadowRealmGetWrappedValue] at heq
    cases heq
    exact hgood
  | ref i =>
    rcases hg : Heap.get h i with _ | o
    · rw [shadowRealmGetWrappedValue, hg] at heq
      cases heq
    · cases o with
      | nonCallable =>
        rw [shadowRealmGetWrappedValue, hg] at heq
        cases heq
      | plainCallable r =>
        rw [shadowRealmGetWrappedValue, hg] at heq
        cases heq
        intro j t2 r2 hj
        rcases Heap.get_append_cases hj with ⟨hlt, hold⟩ | ⟨_, hx⟩
        · obtain ⟨r3, hr3⟩ := hgood j t2 r2 hold
          exact ⟨r3, by
            rw [Heap.get_append_left [HeapObj.wrappedFunction i b]
              (Heap.lt_of_get_eq_some hr3)]
            exact hr3⟩
        · cases hx
          exact ⟨r, by
            rw [Heap.get_append_left [HeapObj.wrappedFunction i b]
              (Heap.lt_of_get_eq_some hg)]
            exact hg⟩
      | wrappedFunction t r =>
        rw [shadowRealmGetWrappedValue, hg] at heq
        cases heq
        intro j t2 r2 hj
        obtain ⟨r3, hr3⟩ := hgood i t r hg
        rcases Heap.get_append_cases hj with ⟨hlt, hold⟩ | ⟨_, hx⟩
        · obtain ⟨r4, hr4⟩ := hgood j t2 r2 hold
          exact ⟨r4, by
            rw [Heap.get_append_left [HeapObj.wrappedFunction t b]
              (Heap.lt_of_get_eq_some hr4)]
            exact hr4⟩
        · cases hx
          exact ⟨r3, by
            rw [Heap.get_append_left [HeapObj.wrappedFunction t b]
              (Heap.lt_of_get_eq_some hr3)]
            exact hr3⟩


theorem wrap_resolvesTo {h : Heap} {v : Value} {c r0 : Nat}
    (hres : resolvesTo h v c) (hc : Heap.get h c = some (.plainCallable r0))
    (a b : Nat) :
    shadowRealmGetWrappedValue a b v h =
      .ok (.ref h.length, h ++ [.wrappedFunction c b]) ∧
    Heap.get (h ++ [.wrappedFunction c b]) c = some (.plainCallable r0) ∧
    resolvesTo (h ++ [.wrappedFunction c b]) (.ref h.length) c := by
  have hkeep : Heap.get (h ++ [HeapObj.wrappedFunction c b]) c =
      some (.plainCallable r0) := by
    rw [Heap.get_append_left [HeapObj.wrappedFunction c b]
      (Heap.lt_of_get_eq_some hc)]
    exact hc
  have hnew : resolvesTo (h ++ [HeapObj.wrappedFunction c b]) (.ref h.length) c :=
    Or.inr ⟨h.length, b, rfl, Heap.get_append_self h _⟩
  rcases hres with rfl | ⟨j, r, rfl, hj⟩
  · exact ⟨by simpa [unwrapTarget] using wrap_callable_eq hc rfl a b, hkeep, hnew⟩
  · exact ⟨by simpa [unwrapTarget] using wrap_callable_eq hj rfl a b, hkeep, hnew⟩

theorem wrapChain_resolves {ps : List (Nat × Nat)} (hne : ps ≠ []) :
    ∀ {h : Heap} {v : Value} {c r0 : Nat},
    resolvesTo h v c →
    Heap.get h c = some (.plainCallable r0) →
    ∃ n h2, wrapChain ps v h = .ok (.ref n, h2) ∧
      (∃ rr, Heap.get h2 n = some (.wrappedFunction c rr)) ∧
      Heap.get h2 c = some (.plainCallable r0) := by
  induction ps with
  | nil => exact absurd rfl hne
  | cons p rest ih =>
    intro h v c r0 hres hc
    obtain ⟨pc, pt⟩ := p
    obtain ⟨heq, hkeep, hnew⟩ := wrap_resolvesTo hres hc pc pt
    rcases rest with _ | ⟨q, qs⟩
    · refine ⟨h.length, h ++ [.wrappedFunction c pt], ?_,
        ⟨pt, Heap.get_append_self h _⟩, hkeep⟩
      rw [wrapChain, heq]
      rfl
    · obtain ⟨n, h2, hcEq, hw, hc2⟩ := ih (by simp) hnew hkeep
      refine ⟨n, h2, ?_, hw, hc2⟩
      rw [wrapChain, heq]
      exact hcEq

/-! ### The call trampoline on its main paths -/

theorem callWrappedFunction_ok_spec
    {h : Heap} {fid t cr tr : Nat} {receiver : Value} {args : List Value}
    {call : CallOracle} {result : Value} (context : Nat)
    (hfid : Heap.get h fid = some (.wrappedFunction t cr))
    (hrealm : getFunctionRealm h t = some tr)
    (hrecv : wrappableB h receiver = true)
    (hargs : ∀ a ∈ args, wrappableB h a = true)
    (hcall : ∀ tc tg rv avs hh, call tc tg rv avs hh = (hh, .ok result))
    (hres : wrappableB h result = true) :
    ∃ wr wa h3 wrapped_result h4,
      callWrappedFunction call true context fid receiver args h =
        (.ok (wrapped_result, h4),
         .wrapCall cr tr receiver :: args.map (Event.wrapCall cr tr) ++
           [.targetCall tr t wr wa, .wrapCall cr cr result]) ∧
      wa.length = args.length ∧
      shadowRealmGetWrappedValue cr cr result h3 = .ok (wrapped_result, h4) := by
  obtain ⟨wr, l1, heq1, _⟩ := wrap_ok_of_wrappable hrecv cr tr
  obtain ⟨wa, l2, heq2, hlen⟩ :=
    wrapArgs_ok (fun a ha => wrappableB_append l1 (hargs a ha)) cr tr
  have hres2 : wrappableB (h ++ l1 ++ l2) result = true :=
    wrappableB_append l2 (wrappableB_append l1 hres)
  obtain ⟨wrapped_result, l3, heq3, _⟩ := wrap_ok_of_wrappable hres2 cr cr
  refine ⟨wr, wa, h ++ l1 ++ l2, wrapped_result, h ++ l1 ++ l2 ++ l3, ?_, hlen, heq3⟩
  simp only [callWrappedFunction, if_true, hfid, hrealm, heq1, heq2, hcall, heq3]

theorem callWrappedFunction_throw_spec
    {h : Heap} {fid t cr tr : Nat} {receiver : Value} {args : List Value}
    {call : CallOracle} {e : Value} (context : Nat)
    (hfid : Heap.get h fid = some (.wrappedFunction t cr))
    (hrealm : getFunctionRealm h t = some tr)
    (hrecv : wrappableB h receiver = true)
    (hargs : ∀ a ∈ args, wrappableB h a = true)
    (hcall : ∀ tc tg rv avs hh, call tc tg rv avs hh = (hh, .error e)) :
    ∃ wr wa,
      callWrappedFunction call true context fid receiver args h =
        (.thrown (.typeError context .kCallShadowRealmFunctionThrown e),
         .wrapCall cr tr receiver :: args.map (Event.wrapCall cr tr) ++
           [.targetCall tr t wr wa]) ∧
      wa.length = args.length := by
  obtain ⟨wr, l1, heq1, _⟩ := wrap_ok_of_wrappable hrecv cr tr
  obtain ⟨wa, l2, heq2, hlen⟩ :=
    wrapArgs_ok (fun a ha => wrappableB_append l1 (hargs a ha)) cr tr
  refine ⟨wr, wa, ?_, hlen⟩
  simp only [callWrappedFunction, if_true, hfid, hrealm, heq1, heq2, hcall]

/-! ### Claim theorems -/

/-- C4: for every primitive value `p` and any pair of realm arguments,
`ShadowRealmGetWrappedValue` returns `p` itself unchanged and allocates no
wrapper (the heap is returned unmodified). -/
theorem c4_primitive_passthrough (a b : Nat) (p : Prim) (h : Heap) :
    shadowRealmGetWrappedValue a b (.prim p) h = .ok (.prim p, h) := rfl

/-- C7: `CallWrappedFunction` performs `PerformStackCheck` before doing any
other work: when the stack budget is exceeded it throws `StackOverflowError`
immediately, with an empty event trace — no target-realm resolution, no wrap
re-entry and no invocation of the underlying callable happen, whatever the
wrapper, receiver, arguments, heap or call mechanism are. -/
theorem c7_stack_check_first (call : CallOracle) (context fid : Nat)
    (receiver : Value) (args : List Value) (h : Heap) :
    callWrappedFunction call false context fid receiver args h =
      (.thrown (.stackOverflow context), []) := rfl

/-- C6 (amended): the realm field (`kContextOffset`) of the freshly built
`JSWrappedFunction` equals `creation_context`, the SECOND realm argument of
`ShadowRealmGetWrappedValue` (the realm the value is being admitted into),
not the first (`context`, used only to attribute the `kNotCallable` error). -/
theorem c6_wrapper_realm_is_creation_context (a b i : Nat) (h : Heap)
    (o : HeapObj) (hg : Heap.get h i = some o) (hc : o.isCallableObj = true) :
    shadowRealmGetWrappedValue a b (.ref i) h =
      .ok (.ref h.length, h ++ [.wrappedFunction (unwrapTarget i o) b]) :=
  wrap_callable_eq hg hc a b

/-- C6 counterexample: wrapping the plain callable `0` with
`context = 1` (first realm argument) and `creation_context = 2` (second)
stores realm `2` — the second argument, not the first — in the new wrapper. -/
theorem c6_wrapper_realm_counterexample :
    shadowRealmGetWrappedValue 1 2 (.ref 0) [.plainCallable 5] =
      .ok (.ref 1, [.plainCallable 5, .wrappedFunction 0 2]) ∧
    HeapObj.wrappedFunction 0 2 ≠ .wrappedFunction 0 1 := by decide

/-- C10: wrapping any callable (plain or already wrapped, realms arbitrary and
possibly equal to the value's own realm) allocates a fresh wrapper at the next
free heap id, distinct from the input; wrapping the same callable again
produces a second wrapper distinct from the first. -/
theorem c10_fresh_wrapper (a b a2 b2 i : Nat) (h : Heap) (o : HeapObj)
    (hg : Heap.get h i = some o) (hc : o.isCallableObj = true) :
    ∃ t1 t2,
      shadowRealmGetWrappedValue a b (.ref i) h =
        .ok (.ref h.length, h ++ [.wrappedFunction t1 b]) ∧
      (.ref h.length : Value) ≠ .ref i ∧
      shadowRealmGetWrappedValue a2 b2 (.ref i) (h ++ [.wrappedFunction t1 b]) =
        .ok (.ref (h.length + 1),
          h ++ [.wrappedFunction t1 b] ++ [.wrappedFunction t2 b2]) ∧
      (.ref (h.length + 1) : Value) ≠ .ref h.length := by
  have hi := Heap.lt_of_get_eq_some hg
  have hg2 : Heap.get (h ++ [HeapObj.wrappedFunction (unwrapTarget i o) b]) i =
      some o := by
    rw [Heap.get_append_left _ hi]
    exact hg
  refine ⟨unwrapTarget i o, unwrapTarget i o, wrap_callable_eq hg hc a b, ?_, ?_, ?_⟩
  · simp
    omega
  · simpa using wrap_callable_eq hg2 hc a2 b2
  · simp

/-- C10 witness: two successive wraps of the plain callable `0` yield the
distinct fresh wrappers `1` and `2`. -/
theorem c10_fresh_wrapper_witness :
    Heap.get [HeapObj.plainCallable 9] 0 = some (.plainCallable 9) ∧
    HeapObj.isCallableObj (.plainCallable 9) = true ∧
    (∃ t1 t2,
      shadowRealmGetWrappedValue 1 2 (.ref 0) [.plainCallable 9] =
        .ok (.ref 1, [.plainCallable 9] ++ [.wrappedFunction t1 2]) ∧
      (.ref 1 : Value) ≠ .ref 0 ∧
      shadowRealmGetWrappedValue 3 4 (.ref 0)
          ([.plainCallable 9] ++ [.wrappedFunction t1 2]) =
        .ok (.ref 2,
          [.plainCallable 9] ++ [.wrappedFunction t1 2] ++ [.wrappedFunction t2 4]) ∧
      (.ref 2 : Value) ≠ .ref 1) :=
  ⟨by decide, by decide,
   c10_fresh_wrapper 1 2 3 4 0 [.plainCallable 9] (.plainCallable 9)
     (by decide) (by decide)⟩

/-- C2: (1) wrapping preserves the global invariant that the target stored in
any wrapper on the heap is a plain, non-wrapper callable; (2) for every
wrapping chain of length ≥ 1 (so in particular every chain of depth ≥ 2)
starting from a plain callable `c`, with arbitrary realm arguments at every
step, the resulting wrapper's stored target is exactly `c`, the innermost
non-wrapper callable — never an intermediate wrapper. -/
theorem c2_target_never_wrapper :
    (∀ (h : Heap) (a b : Nat) (v w : Value) (h2 : Heap), goodHeap h →
        shadowRealmGetWrappedValue a b v h = .ok (w, h2) → goodHeap h2) ∧
    (∀ (ps : List (Nat × Nat)) (h : Heap) (c r0 : Nat), ps ≠ [] →
        Heap.get h c = some (.plainCallable r0) →
        ∃ n h2, wrapChain ps (.ref c) h = .ok (.ref n, h2) ∧
          (∃ rr, Heap.get h2 n = some (.wrappedFunction c rr)) ∧
          Heap.get h2 c = some (.plainCallable r0)) :=
  ⟨fun _ a b _ _ _ hg he => wrap_preserves_goodHeap hg a b he,
   fun _ _ _ _ hne hc => wrapChain_resolves hne (Or.inl rfl) hc⟩

/-- `goodHeap` holds for a one-object heap with a plain callable. -/
theorem goodHeap_single (r : Nat) : goodHeap [HeapObj.plainCallable r] := by
  intro i t rr hg
  match i, hg with
  | 0, hg => simp [Heap.get] at hg
  | n + 1, hg => simp [Heap.get] at hg

/-- C2 witness: the invariant survives one concrete wrap, and a concrete
depth-2 chain over the plain callable `0` ends in a wrapper targeting `0`. -/
theorem c2_target_never_wrapper_witness :
    goodHeap [HeapObj.plainCallable 3, HeapObj.wrappedFunction 0 2] ∧
    (∃ n h2, wrapChain [(1, 2), (3, 4)] (.ref 0) [HeapObj.plainCallable 7] =
        .ok (.ref n, h2) ∧
      (∃ rr, Heap.get h2 n = some (.wrappedFunction 0 rr)) ∧
      Heap.get h2 0 = some (.plainCallable 7)) :=
  ⟨c2_target_never_wrapper.1 [.plainCallable 3] 1 2 (.ref 0) (.ref 1)
      [.plainCallable 3, .wrappedFunction 0 2] (goodHeap_single 3) (by decide),
   c2_target_never_wrapper.2 [(1, 2), (3, 4)] [.plainCallable 7] 0 7
     (by decide) (by decide)⟩

/-- C3: for a wrapper `fid` holding callable `t` with wrapper realm `R1`,
where `t` is owned by realm `R2`, `CallWrappedFunction` resolves the target
realm from the target's owner (`GetFunctionRealm`), wraps the receiver and
then each argument individually into `R2` in index order 0..n-1, invokes `t`
in `R2` with exactly those wrapped values, and returns the result of wrapping
the call result with BOTH realm arguments equal to the caller realm `R1`. -/
theorem c3_call_round_trip
    {h : Heap} {fid t R1 R2 : Nat} {receiver : Value} {args : List Value}
    {call : CallOracle} {result : Value} (context : Nat)
    (hfid : Heap.get h fid = some (.wrappedFunction t R1))
    (howner : Heap.get h t = some (.plainCallable R2))
    (hrecv : wrappableB h receiver = true)
    (hargs : ∀ a ∈ args, wrappableB h a = true)
    (hcall : ∀ tc tg rv avs hh, call tc tg rv avs hh = (hh, .ok result))
    (hres : wrappableB h result = true) :
    ∃ wr wa h3 wrapped_result h4,
      callWrappedFunction call true context fid receiver args h =
        (.ok (wrapped_result, h4),
         .wrapCall R1 R2 receiver :: args.map (Event.wrapCall R1 R2) ++
           [.targetCall R2 t wr wa, .wrapCall R1 R1 result]) ∧
      wa.length = args.length ∧
      shadowRealmGetWrappedValue R1 R1 result h3 = .ok (wrapped_result, h4) :=
  callWrappedFunction_ok_spec context hfid (by simp [getFunctionRealm, howner])
    hrecv hargs hcall hres

/-- C3 witness: concrete round trip — wrapper `1` over callable `0` owned by
realm `2`, created for realm `1`, invoked with two primitive arguments and a
primitive result. -/
theorem c3_call_round_trip_witness :
    Heap.get [HeapObj.plainCallable 2, HeapObj.wrappedFunction 0 1] 1 =
      some (.wrappedFunction 0 1) ∧
    Heap.get [HeapObj.plainCallable 2, HeapObj.wrappedFunction 0 1] 0 =
      some (.plainCallable 2) ∧
    (∃ wr wa h3 wrapped_result h4,
      callWrappedFunction (constOracle (.prim (.smi 5))) true 1 1
          (.prim (.smi 0)) [.prim (.smi 1), .prim (.smi 2)]
          [.plainCallable 2, .wrappedFunction 0 1] =
        (.ok (wrapped_result, h4),
         .wrapCall 1 2 (.prim (.smi 0)) ::
           [Value.prim (.smi 1), Value.prim (.smi 2)].map (Event.wrapCall 1 2) ++
           [.targetCall 2 0 wr wa, .wrapCall 1 1 (.prim (.smi 5))]) ∧
      wa.length = [Value.prim (.smi 1), Value.prim (.smi 2)].length ∧
      shadowRealmGetWrappedValue 1 1 (.prim (.smi 5)) h3 =
        .ok (wrapped_result, h4)) :=
  ⟨by decide, by decide,
   c3_call_round_trip 1 (by decide) (by decide) (by decide)
     (by decide) (fun _ _ _ _ _ => rfl) (by decide)⟩

/-- C8 (amended): a successful invocation re-enters the value wrapper exactly
once per argument PLUS once for the receiver (so `n + 1` times into the target
realm, not twice per argument), and exactly once for the return value (into
the caller realm); in total `n + 2` wrap re-entries. -/
theorem c8_marshalling_reentry_count
    {h : Heap} {fid t cr tr : Nat} {receiver : Value} {args : List Value}
    {call : CallOracle} {result : Value} (context : Nat)
    (hfid : Heap.get h fid = some (.wrappedFunction t cr))
    (howner : Heap.get h t = some (.plainCallable tr))
    (hne : cr ≠ tr)
    (hrecv : wrappableB h receiver = true)
    (hargs : ∀ a ∈ args, wrappableB h a = true)
    (hcall : ∀ tc tg rv avs hh, call tc tg rv avs hh = (hh, .ok result))
    (hres : wrappableB h result = true) :
    ((callWrappedFunction call true context fid receiver args h).2.filter
        (Event.isWrapInto tr)).length = args.length + 1 ∧
    ((callWrappedFunction call true context fid receiver args h).2.filter
        (Event.isWrapInto cr)).length = 1 ∧
    ((callWrappedFunction call true context fid receiver args h).2.filter
        Event.isWrapCall).length = args.length + 2 := by
  have hrealm : getFunctionRealm h t = some tr := by
    simp [getFunctionRealm, howner]
  obtain ⟨wr, wa, h3, wres, h4, heq, hlen, hwrap⟩ :=
    callWrappedFunction_ok_spec context hfid hrealm hrecv hargs hcall hres
  rw [heq]
  refine ⟨?_, ?_, ?_⟩ <;>
    simp [Event.isWrapInto, Event.isWrapCall, List.filter_append,
      List.filter_map, Function.comp, hne, Ne.symm hne]

/-- C8 counterexample: with zero arguments the claim predicts `2 * 0 = 0`
re-entries into the target realm, but the code performs one (for the
receiver): invoking wrapper `1` (caller realm 1, target owned by realm 2) with
no arguments produces exactly one into-target wrap event. -/
theorem c8_reentry_count_counterexample :
    ((callWrappedFunction (constOracle (.prim (.smi 5))) true 1 1
        (.prim (.smi 0)) [] [.plainCallable 2, .wrappedFunction 0 1]).2.filter
      (Event.isWrapInto 2)).length ≠ 2 * ([] : List Value).length := by decide

/-- C1 (amended): if the underlying call throws any error `e`, `invoke` raises
exactly one error — a fresh `TypeError` with template
`kCallShadowRealmFunctionThrown`, created in the builtin's own invocation
context, never the original error object — but the original error `e` is
passed as the message-template argument of that `TypeError`
(`ThrowTypeError(context, kCallShadowRealmFunctionThrown,
var_exception.value())`), so the original error's rendered form IS observable
from the result; no result wrap happens after the failed call. -/
theorem c1_bridged_call_error_carries_original
    {h : Heap} {fid t cr tr : Nat} {receiver : Value} {args : List Value}
    {call : CallOracle} {e : Value} (context : Nat)
    (hfid : Heap.get h fid = some (.wrappedFunction t cr))
    (howner : Heap.get h t = some (.plainCallable tr))
    (hrecv : wrappableB h receiver = true)
    (hargs : ∀ a ∈ args, wrappableB h a = true)
    (hcall : ∀ tc tg rv avs hh, call tc tg rv avs hh = (hh, .error e)) :
    ∃ wr wa,
      callWrappedFunction call true context fid receiver args h =
        (.thrown (.typeError context .kCallShadowRealmFunctionThrown e),
         .wrapCall cr tr receiver :: args.map (Event.wrapCall cr tr) ++
           [.targetCall tr t wr wa]) ∧
      wa.length = args.length :=
  callWrappedFunction_throw_spec context hfid (by simp [getFunctionRealm, howner])
    hrecv hargs hcall

/-- C1 witness: concrete failing call — the single raised error is the
bridged-failure `TypeError` carrying the thrown value `7` as its argument. -/
theorem c1_bridged_call_error_witness :
    Heap.get [HeapObj.plainCallable 2, HeapObj.wrappedFunction 0 1] 1 =
      some (.wrappedFunction 0 1) ∧
    (∃ wr wa,
      callWrappedFunction (throwOracle (.prim (.smi 7))) true 1 1
          (.prim (.smi 0)) [.prim (.smi 1)]
          [.plainCallable 2, .wrappedFunction 0 1] =
        (.thrown (.typeError 1 .kCallShadowRealmFunctionThrown (.prim (.smi 7))),
         .wrapCall 1 2 (.prim (.smi 0)) ::
           [Value.prim (.smi 1)].map (Event.wrapCall 1 2) ++
           [.targetCall 2 0 wr wa]) ∧
      wa.length = [Value.prim (.smi 1)].length) :=
  ⟨by decide,
   c1_bridged_call_error_carries_original 1 (by decide) (by decide) (by decide)
     (by decide) (fun _ _ _ _ _ => rfl)⟩

/-- C1 counterexample: two invocations identical except for the error thrown
by the underlying call produce observably different results — each raised
`TypeError` contains the corresponding original error as its message argument,
so information about the original error is observable, contradicting the
claim. -/
theorem c1_original_error_observable_counterexample :
    (callWrappedFunction (throwOracle (.prim (.smi 7))) true 1 1
        (.prim (.smi 0)) [] [.plainCallable 2, .wrappedFunction 0 1]).1 =
      .thrown (.typeError 1 .kCallShadowRealmFunctionThrown (.prim (.smi 7))) ∧
    (callWrappedFunction (throwOracle (.prim (.smi 8))) true 1 1
        (.prim (.smi 0)) [] [.plainCallable 2, .wrappedFunction 0 1]).1 =
      .thrown (.typeError 1 .kCallShadowRealmFunctionThrown (.prim (.smi 8))) ∧
    (callWrappedFunction (throwOracle (.prim (.smi 7))) true 1 1
        (.prim (.smi 0)) [] [.plainCallable 2, .wrappedFunction 0 1]).1 ≠
      (callWrappedFunction (throwOracle (.prim (.smi 8))) true 1 1
        (.prim (.smi 0)) [] [.plainCallable 2, .wrappedFunction 0 1]).1 := by
  decide

/-- C5: (1) wrapping a non-callable receiver fails with the `kNotCallable`
`TypeError` whatever the realm arguments; (2) when the receiver of an
invocation is such a value, that `TypeError` (attributed to the caller realm,
not a bridged-call-failed error) is surfaced and the trace shows the
underlying callable was never invoked; (3) likewise when any argument is such
a value — the earlier arguments are wrapped in order, then the marshalling
error surfaces and no target call happens. -/
theorem c5_noncallable_rejection :
    (∀ (a b i : Nat) (h : Heap), Heap.get h i = some .nonCallable →
      shadowRealmGetWrappedValue a b (.ref i) h =
        .thrown (.typeError a .kNotCallable (.ref i))) ∧
    (∀ (call : CallOracle) (context fid t cr tr i : Nat) (args : List Value)
        (h : Heap),
      Heap.get h fid = some (.wrappedFunction t cr) →
      Heap.get h t = some (.plainCallable tr) →
      Heap.get h i = some .nonCallable →
      callWrappedFunction call true context fid (.ref i) args h =
        (.thrown (.typeError cr .kNotCallable (.ref i)),
         [.wrapCall cr tr (.ref i)])) ∧
    (∀ (call : CallOracle) (context fid t cr tr i : Nat) (receiver : Value)
        (pre post : List Value) (h : Heap),
      Heap.get h fid = some (.wrappedFunction t cr) →
      Heap.get h t = some (.plainCallable tr) →
      wrappableB h receiver = true →
      (∀ a ∈ pre, wrappableB h a = true) →
      Heap.get h i = some .nonCallable →
      callWrappedFunction call true context fid receiver (pre ++ .ref i :: post) h =
        (.thrown (.typeError cr .kNotCallable (.ref i)),
         .wrapCall cr tr receiver :: pre.map (Event.wrapCall cr tr) ++
           [Event.wrapCall cr tr (.ref i)])) := by
  refine ⟨?_, ?_, ?_⟩
  · intro a b i h hbad
    simp [shadowRealmGetWrappedValue, hbad]
  · intro call context fid t cr tr i args h hfid howner hbad
    have hrealm : getFunctionRealm h t = some tr := by
      simp [getFunctionRealm, howner]
    have hw : shadowRealmGetWrappedValue cr tr (.ref i) h =
        .thrown (.typeError cr .kNotCallable (.ref i)) := by
      simp [shadowRealmGetWrappedValue, hbad]
    simp only [callWrappedFunction, if_true, hfid, hrealm, hw]
  · intro call context fid t cr tr i receiver pre post h hfid howner hrecv hpre hbad
    have hrealm : getFunctionRealm h t = some tr := by
      simp [getFunctionRealm, howner]
    obtain ⟨wr, l1, heq1, _⟩ := wrap_ok_of_wrappable hrecv cr tr
    have hbad1 : Heap.get (h ++ l1) i = some .nonCallable := by
      rw [Heap.get_append_left l1 (Heap.lt_of_get_eq_some hbad)]
      exact hbad
    have hargs := wrapArgs_bad post i cr tr pre (h ++ l1)
      (fun x hx => wrappableB_append l1 (hpre x hx)) hbad1
    simp only [callWrappedFunction, if_true, hfid, hrealm, heq1, hargs]
    rfl

/-- C5 witness: wrapping the non-callable `1` throws `kNotCallable` for realms
`(3,4)`; a non-callable receiver and a non-callable second argument each
surface the marshalling `TypeError` with no target call in the trace. -/
theorem c5_noncallable_rejection_witness :
    shadowRealmGetWrappedValue 3 4 (.ref 1)
        [HeapObj.plainCallable 0, HeapObj.nonCallable] =
      .thrown (.typeError 3 .kNotCallable (.ref 1)) ∧
    callWrappedFunction (constOracle (.prim (.smi 5))) true 9 1 (.ref 2) []
        [.plainCallable 2, .wrappedFunction 0 1, .nonCallable] =
      (.thrown (.typeError 1 .kNotCallable (.ref 2)),
       [.wrapCall 1 2 (.ref 2)]) ∧
    callWrappedFunction (constOracle (.prim (.smi 5))) true 9 1 (.prim (.smi 0))
        ([.prim (.smi 4)] ++ .ref 2 :: [.prim (.smi 6)])
        [.plainCallable 2, .wrappedFunction 0 1, .nonCallable] =
      (.thrown (.typeError 1 .kNotCallable (.ref 2)),
       .wrapCall 1 2 (.prim (.smi 0)) ::
         [Value.prim (.smi 4)].map (Event.wrapCall 1 2) ++
         [Event.wrapCall 1 2 (.ref 2)]) :=
  ⟨c5_noncallable_rejection.1 3 4 1 _ (by decide),
   c5_noncallable_rejection.2.1 _ 9 1 0 1 2 2 [] _
     (by decide) (by decide) (by decide),
   c5_noncallable_rejection.2.2 _ 9 1 0 1 2 2 (.prim (.smi 0))
     [.prim (.smi 4)] [.prim (.smi 6)] _
     (by decide) (by decide) (by decide) (by decide) (by decide)⟩

/-- C9: under the construction invariant — the wrapper's stored target is a
callable heap object — `GetFunctionRealm` always resolves, so the
`target_not_callable` bailout (the CSA `Unreachable()`) is never taken:
`CallWrappedFunction` never ends in the `unreachableHit` outcome, whatever the
stack verdict, receiver, arguments, heap contents elsewhere, or call
mechanism. -/
theorem c9_unreachable_not_taken
    (call : CallOracle) (stackOk : Bool) (context fid t cr : Nat)
    (receiver : Value) (args : List Value) (h : Heap) (o : HeapObj)
    (hfid : Heap.get h fid = some (.wrappedFunction t cr))
    (htgt : Heap.get h t = some o) (hc : o.isCallableObj = true) :
    (getFunctionRealm h t).isSome = true ∧
    (callWrappedFunction call stackOk context fid receiver args h).1 ≠
      .unreachableHit := by
  have hrealm : ∃ r, getFunctionRealm h t = some r := by
    cases o with
    | plainCallable r => exact ⟨r, by simp [getFunctionRealm, htgt]⟩
    | nonCallable => simp [HeapObj.isCallableObj] at hc
    | wrappedFunction t2 r => exact ⟨r, by simp [getFunctionRealm, htgt]⟩
  obtain ⟨r, hr⟩ := hrealm
  refine ⟨by simp [hr], ?_⟩
  cases stackOk with
  | false => simp [callWrappedFunction]
  | true =>
    rcases hwv : shadowRealmGetWrappedValue cr r receiver h with ⟨wrc, h1⟩ | e | u | s
    · rcases ha : wrapArgs cr r args h1 with ⟨o2, evs⟩
      cases o2 with
      | ok p =>
        obtain ⟨wa, h2⟩ := p
        rcases hcall2 : call r t wrc wa h2 with ⟨h3, res⟩
        cases res with
        | error e =>
          simp [callWrappedFunction, hfid, hr, hwv, ha, hcall2]
        | ok result =>
          rcases hwv2 : shadowRealmGetWrappedValue cr cr result h3
            with ⟨wres, h4⟩ | e | u | s
          · simp [callWrappedFunction, hfid, hr, hwv, ha, hcall2, hwv2]
          · simp [callWrappedFunction, hfid, hr, hwv, ha, hcall2, hwv2]
          · exact absurd hwv2 (wrap_ne_unreachableHit cr cr result h3)
          · simp [callWrappedFunction, hfid, hr, hwv, ha, hcall2, hwv2]
      | thrown e => simp [callWrappedFunction, hfid, hr, hwv, ha]
      | unreachableHit =>
        have := wrapArgs_ne_unreachableHit cr r args h1
        rw [ha] at this
        simp at this
      | stuck => simp [callWrappedFunction, hfid, hr, hwv, ha]
    · simp [callWrappedFunction, hfid, hr, hwv]
    · exact absurd hwv (wrap_ne_unreachableHit cr r receiver h)
    · simp [callWrappedFunction, hfid, hr, hwv]

/-- C9 witness: a concrete well-formed wrapper over a plain callable — realm
resolution succeeds and the invocation outcome is not the unreachable trap. -/
theorem c9_unreachable_not_taken_witness :
    (getFunctionRealm [HeapObj.plainCallable 2, HeapObj.wrappedFunction 0 1]
        0).isSome = true ∧
    (callWrappedFunction (constOracle (.prim (.smi 5))) true 1 1
        (.prim (.smi 0)) [] [.plainCallable 2, .wrappedFunction 0 1]).1 ≠
      .unreachableHit :=
  c9_unreachable_not_taken (constOracle (.prim (.smi 5))) true 1 1 0 1
    (.prim (.smi 0)) [] [.plainCallable 2, .wrappedFunction 0 1]
    (.plainCallable 2) (by decide) (by decide) (by decide)

/-- C6 witness: concrete instantiation of the amended statement — the wrapper
built with realm arguments `(1, 2)` stores realm `2`. -/
theorem c6_wrapper_realm_witness :
    Heap.get [HeapObj.plainCallable 5] 0 = some (.plainCallable 5) ∧
    HeapObj.isCallableObj (.plainCallable 5) = true ∧
    shadowRealmGetWrappedValue 1 2 (.ref 0) [HeapObj.plainCallable 5] =
      .ok (.ref 1, [HeapObj.plainCallable 5] ++
        [.wrappedFunction (unwrapTarget 0 (.plainCallable 5)) 2]) :=
  ⟨by decide, by decide,
   c6_wrapper_realm_is_creation_context 1 2 0 [.plainCallable 5]
     (.plainCallable 5) (by decide) (by decide)⟩

/-- C8 witness: a concrete two-argument invocation shows `2 + 1 = 3` wrap
re-entries into the target realm `2`, one into the caller realm `1`, and
`2 + 2 = 4` in total. -/
theorem c8_marshalling_reentry_count_witness :
    ((callWrappedFunction (constOracle (.prim (.smi 5))) true 1 1
        (.prim (.smi 0)) [.prim (.smi 1), .prim (.smi 2)]
        [.plainCallable 2, .wrappedFunction 0 1]).2.filter
      (Event.isWrapInto 2)).length =
        [Value.prim (.smi 1), Value.prim (.smi 2)].length + 1 ∧
    ((callWrappedFunction (constOracle (.prim (.smi 5))) true 1 1
        (.prim (.smi 0)) [.prim (.smi 1), .prim (.smi 2)]
        [.plainCallable 2, .wrappedFunction 0 1]).2.filter
      (Event.isWrapInto 1)).length = 1 ∧
    ((callWrappedFunction (constOracle (.prim (.smi 5))) true 1 1
        (.prim (.smi 0)) [.prim (.smi 1), .prim (.smi 2)]
        [.plainCallable 2, .wrappedFunction 0 1]).2.filter
      Event.isWrapCall).length =
        [Value.prim (.smi 1), Value.prim (.smi 2)].length + 2 :=
  @c8_marshalling_reentry_count [.plainCallable 2, .wrappedFunction 0 1] 1 0 1 2
    (.prim (.smi 0)) [.prim (.smi 1), .prim (.smi 2)]
    (constOracle (.prim (.smi 5))) (.prim (.smi 5)) 1
    (by decide) (by decide) (by decide) (by decide) (by decide)
    (fun _ _ _ _ _ => rfl) (by decide)
